import Mathlib

/-!
Verification development for the NBA player statistics pipeline
(`Analysis.py`).  The program is a linear batch pipeline over an in-memory
pandas DataFrame: load → preview → clean → top-scorers analysis → team
performance analysis → visualization → summary report.

We shallowly embed the tabular data model and the operations of the
pipeline.  A DataFrame cell is a tagged union: text, a finite rational
number, `+inf`/`-inf` (IEEE infinities, which pandas stores as ordinary
float values), or "missing" (pandas `NaN`: note that in pandas the NaN
float is exactly the missing-value marker, so the two are identified
here).  A table is an ordered column-name list together with an ordered
list of rows, each row a list of cells indexed positionally; a named cell
lookup goes through the first index of the column name, as a DataFrame
column selection does.
-/

namespace NBA

/-- A DataFrame cell: text, a finite number (rationals stand in for the
floats that appear in the data), an IEEE infinity, or missing (= NaN). -/
inductive Cell where
  | text (s : String)
  | num (q : ℚ)
  | pinf
  | ninf
  | missing
deriving DecidableEq

/-- `pd.isna`: only NaN (missing) cells are "na"; infinities and text are not. -/
def isMissingC : Cell → Bool
  | .missing => true
  | _ => false

/-- The cell holds text. -/
def isTextC : Cell → Bool
  | .text _ => true
  | _ => false

/-- The cell holds a finite number. -/
def isNumC : Cell → Bool
  | .num _ => true
  | _ => false

/-- The cell holds a number, finite or infinite (a float that is not NaN). -/
def isNumericC : Cell → Bool
  | .num _ => true
  | .pinf => true
  | .ninf => true
  | _ => false

/-- The finite numeric value of a cell (0 for non-finite cells); used only to
state properties about cells already known to be finite numbers. -/
def qOf : Cell → ℚ
  | .num q => q
  | _ => 0

/-- An in-memory table: ordered column names and rows of cells. -/
structure Table where
  cols : List String
  rows : List (List Cell)
deriving DecidableEq

theorem Table.ext' {t u : Table} (hc : t.cols = u.cols) (hr : t.rows = u.rows) :
    t = u := by
  cases t; cases u; cases hc; cases hr; rfl

/-- Positional lookup of a named column in a row: the cell at the first
index of `c` in `cols` (missing when the column is absent or the row is
too short). -/
def cellAt (cols : List String) (r : List Cell) (c : String) : Cell :=
  match cols.findIdx? (· = c) with
  | some i => r.getD i .missing
  | none => .missing

/-- Named cell lookup in a table (`data[c]` for one row). -/
def getCell (t : Table) (r : List Cell) (c : String) : Cell :=
  cellAt t.cols r c

/-- Every row has exactly one cell per column. -/
def wellformedB (t : Table) : Bool :=
  t.rows.all (fun r => r.length == t.cols.length)

/-! ### Cleaning (`clean_data`, Analysis.py lines 62–96) -/

/-- The row survives `dropna(subset=s)`: every column of `s` is non-missing. -/
def rowKeep (cols : List String) (s : List String) (r : List Cell) : Bool :=
  s.all (fun c => !isMissingC (cellAt cols r c))

/-- `data.dropna(subset=s)`: keep the rows that have no missing value in the
columns `s` (Analysis.py lines 81 and 90). -/
def dropna (t : Table) (s : List String) : Table :=
  ⟨t.cols, t.rows.filter (rowKeep t.cols s)⟩

/-- Models the string parsing of `pd.to_numeric` for text cells, simplified
to optionally signed decimal literals with an optional fractional part;
any other string fails to parse and coerces to missing. -/
def parseDigits (l : List Char) : Option ℕ :=
  l.foldl (fun acc c =>
    match acc with
    | none => none
    | some n => if c.isDigit then some (n * 10 + (c.toNat - 48)) else none) (some 0)

/-- Unsigned decimal literal: digits with an optional single point. -/
def parseUnsigned (l : List Char) : Option ℚ :=
  match l.span (·.isDigit) with
  | (intPart, []) =>
      if intPart.isEmpty then none
      else (parseDigits intPart).map (fun n => (n : ℚ))
  | (intPart, '.' :: fracPart) =>
      if intPart.isEmpty && fracPart.isEmpty then none
      else
        match parseDigits intPart, parseDigits fracPart with
        | some n, some f => some ((n : ℚ) + (f : ℚ) / ((10 : ℚ) ^ fracPart.length))
        | _, _ => none
  | _ => none

/-- Signed decimal literal. -/
def parseNum (s : String) : Option ℚ :=
  match s.toList with
  | '-' :: rest => (parseUnsigned rest).map (fun q => -q)
  | l => parseUnsigned l

/-- `pd.to_numeric(cell, errors='coerce')` on a single cell: numbers pass
through, text is parsed (unparsable text becomes missing), missing stays
missing. -/
def toNumericCell : Cell → Cell
  | .text s =>
      match parseNum s with
      | some q => .num q
      | none => .missing
  | .num q => .num q
  | .pinf => .pinf
  | .ninf => .ninf
  | .missing => .missing

/-- One step of the numeric-coercion loop, acting on one row: if column `c`
is present, replace its cell by its coerced value (`data[col] =
pd.to_numeric(data[col], errors='coerce')`); otherwise leave the row
unchanged (the `if col in data.columns` guard). -/
def coerceRowStep (cols : List String) (r : List Cell) (c : String) : List Cell :=
  match cols.findIdx? (· = c) with
  | some i => r.set i (toNumericCell (r.getD i .missing))
  | none => r

/-- The coercion of one column, acting on the whole table. -/
def coerceColumn (t : Table) (c : String) : Table :=
  ⟨t.cols, t.rows.map (fun r => coerceRowStep t.cols r c)⟩

/-- The columns coerced to numeric by `clean_data` (Analysis.py line 84). -/
def numeric_columns : List String := ["PTS", "G", "MP", "TRB", "AST", "STL", "BLK"]

/-- The full coercion of one row by the `for col in numeric_columns` loop. -/
def rowCoerce (cols : List String) (r : List Cell) : List Cell :=
  numeric_columns.foldl (fun r c => coerceRowStep cols r c) r

/-- The critical columns of the first `dropna` (Analysis.py line 81). -/
def critical_columns : List String := ["Player", "Tm", "PTS", "G"]

/-- `clean_data` (Analysis.py lines 62–96): drop rows with missing
`Player`/`Tm`/`PTS`/`G`, coerce the numeric columns, then drop rows whose
`PTS` became missing. -/
def clean_data (t : Table) : Table :=
  let t1 := dropna t critical_columns
  let t2 := numeric_columns.foldl coerceColumn t1
  dropna t2 ["PTS"]

/-! ### Sorting (`DataFrame.sort_values(by=c, ascending=False)`)

pandas `sort_values` with a single key column computes
`nargsort(values, kind='quicksort', ascending=False, na_position='last')`:
the NaN (missing) entries are moved to the end in their original order,
and the rest is argsorted ascending after a reversal, the result being
reversed again.  The core sort, numpy's `kind='quicksort'` (introsort), is
NOT stable: the order of equal keys after it is deterministic but
implementation-defined (it is insertion sort — stable — only on
partitions small enough for introsort's cutoff).  The program therefore
guarantees of the result only that it is *some* permutation of the rows
sorted by the key, non-increasing, with NaN keys last in original order;
the tie order is not guaranteed.  The model below picks one concrete such
permutation — a sort by the linear order (key descending, original
position ascending) — as every executable embedding must pick one.
Nothing proved from it depends on which permutation of equal-key rows the
core sort produces: the properties established downstream (row count,
being a permutation of the input, keys non-increasing, rank density,
aggregates) are invariant under reordering of equal-key rows, and no
tie-order property is claimed of the program. -/

/-- A linear-order key for cells, fixing the total order the model uses to
compare cells of any shape: `-inf` < finite numbers (by value) < `+inf` <
text (lexicographic).  Missing cells never reach a comparison (they are
routed to the NaN bucket), and the pipeline only ever compares finite
numbers with each other. -/
def cellKey : Cell → ℕ ×ₗ (ℚ ×ₗ String)
  | .ninf => toLex (0, toLex (0, ""))
  | .num q => toLex (1, toLex (q, ""))
  | .pinf => toLex (2, toLex (0, ""))
  | .text s => toLex (3, toLex (0, s))
  | .missing => toLex (4, toLex (0, ""))

/-- The model's `≤` on cells. -/
def cellLEb (a b : Cell) : Bool := decide (cellKey a ≤ cellKey b)

/-- The sort key of a tagged row for a descending sort: key descending
(`OrderDual`), original position ascending. -/
def descKey (k : Cell) (i : ℕ) : (ℕ ×ₗ (ℚ ×ₗ String))ᵒᵈ ×ₗ ℕ :=
  toLex (OrderDual.toDual (cellKey k), i)

/-- The ordering relation of the descending sort on `(position, row)` pairs
keyed by column `c` of a table with columns `cols`. -/
def descRel (cols : List String) (c : String) (p q : ℕ × List Cell) : Prop :=
  descKey (cellAt cols p.2 c) p.1 ≤ descKey (cellAt cols q.2 c) q.1

instance (cols : List String) (c : String) : DecidableRel (descRel cols c) :=
  fun p q => by unfold descRel; infer_instance

instance (cols : List String) (c : String) : IsTotal (ℕ × List Cell) (descRel cols c) :=
  ⟨fun p q => le_total (descKey (cellAt cols p.2 c) p.1) (descKey (cellAt cols q.2 c) q.1)⟩

instance (cols : List String) (c : String) : IsTrans (ℕ × List Cell) (descRel cols c) :=
  ⟨fun _ _ _ h1 h2 => le_trans h1 h2⟩

/-- Tag each row with its position. -/
def tagFrom (n : ℕ) : List (List Cell) → List (ℕ × List Cell)
  | [] => []
  | r :: rs => (n, r) :: tagFrom (n + 1) rs

/-- `nargsort(…, ascending=False, na_position='last')` on the rows of `t`
keyed by column `c`, keeping the original positions as tags: the rows with
a non-missing key in stable descending key order, then the rows with a
missing (NaN) key in original order. -/
def sortedTagged (t : Table) (c : String) : List (ℕ × List Cell) :=
  let tagged := tagFrom 0 t.rows
  let nonNan := tagged.filter (fun p => !isMissingC (cellAt t.cols p.2 c))
  let nans := tagged.filter (fun p => isMissingC (cellAt t.cols p.2 c))
  List.insertionSort (descRel t.cols c) nonNan ++ nans

/-- `t.sort_values(by=c, ascending=False)`. -/
def sortValuesDesc (t : Table) (c : String) : Table :=
  ⟨t.cols, (sortedTagged t c).map Prod.snd⟩

/-- `t.head n`. -/
def headRows (t : Table) (n : ℕ) : Table :=
  ⟨t.cols, t.rows.take n⟩

/-- Prepend the cell `num k`, `num (k+1)`, … to the successive rows. -/
def rankRows (k : ℕ) : List (List Cell) → List (List Cell)
  | [] => []
  | r :: rs => (Cell.num k :: r) :: rankRows (k + 1) rs

/-- `t.insert(0, 'Rank', range(1, len(t) + 1))`: a leading `Rank` column
holding 1, 2, …. -/
def insertRank (t : Table) : Table :=
  ⟨"Rank" :: t.cols, rankRows 1 t.rows⟩

/-- `data[cs]`: the column subset `cs`, as a new table (a copy). -/
def selectCols (t : Table) (cs : List String) : Table :=
  ⟨cs, t.rows.map (fun r => cs.map (fun c => getCell t r c))⟩

/-! ### Top scorers (`analyze_top_scorers`, Analysis.py lines 99–142) -/

/-- The column subset selected at Analysis.py line 118. -/
def top_scorer_columns : List String := ["Player", "Tm", "Year", "PTS", "G", "MP"]

/-- `analyze_top_scorers` (Analysis.py lines 99–142): select the relevant
columns, sort by `PTS` descending, keep the first `top_n` rows, and add a
leading `Rank` column 1… .  The insight printing (mean/max/min of the
returned `PTS`) does not affect the returned table. -/
def analyze_top_scorers (t : Table) (top_n : ℕ) : Table :=
  let ts := selectCols t top_scorer_columns
  let ts := sortValuesDesc ts "PTS"
  let ts := headRows ts top_n
  insertRank ts

/-! ### Team performance (`analyze_team_performance`, Analysis.py lines 145–192) -/

/-- The elementwise float division `data['PTS'] / data['G']`, with the IEEE
semantics pandas inherits from numpy at a zero divisor: `p/0` is `+inf`
for `p > 0`, `-inf` for `p < 0`, and NaN (missing) for `p = 0`; a missing
operand gives a missing result.  (A text operand cannot arise in the
pipeline, where both columns have been coerced; the model sends it to
missing.) -/
def cellDiv : Cell → Cell → Cell
  | .num p, .num g =>
      if g = 0 then (if 0 < p then .pinf else if p < 0 then .ninf else .missing)
      else .num (p / g)
  | .pinf, .num g => if 0 ≤ g then .pinf else .ninf
  | .ninf, .num g => if 0 ≤ g then .ninf else .pinf
  | .num _, .pinf => .num 0
  | .num _, .ninf => .num 0
  | _, _ => .missing

/-- `data[c] = column`: overwrite column `c` in place when it exists,
otherwise append it as a new last column — the pandas column-assignment
semantics of Analysis.py line 163, which mutates the caller's table. -/
def setOrAppendCol (t : Table) (c : String) (f : List Cell → Cell) : Table :=
  match t.cols.findIdx? (· = c) with
  | some i => ⟨t.cols, t.rows.map (fun r => r.set i (f r))⟩
  | none => ⟨t.cols ++ [c], t.rows.map (fun r => r ++ [f r])⟩

/-- The `Tm` cell of every row. -/
def tmValues (t : Table) : List Cell := t.rows.map (fun r => getCell t r "Tm")

/-- The group keys of `data.groupby('Tm')`: the distinct non-missing `Tm`
values, in ascending key order (`groupby` sorts its keys). -/
def groupKeys (t : Table) : List Cell :=
  List.insertionSort (fun a b => cellLEb a b = true)
    (((tmValues t).filter (fun c => !isMissingC c)).dedup)

instance : DecidableRel (fun (a b : Cell) => cellLEb a b = true) :=
  fun _ _ => by infer_instance

instance : IsTotal Cell (fun a b => cellLEb a b = true) :=
  ⟨fun a b => by
    simp only [cellLEb, decide_eq_true_eq]
    exact le_total (cellKey a) (cellKey b)⟩

instance : IsTrans Cell (fun a b => cellLEb a b = true) :=
  ⟨fun a b c h1 h2 => by
    simp only [cellLEb, decide_eq_true_eq] at *
    exact le_trans h1 h2⟩

/-- The rows of the group of key `k`. -/
def groupRows (t : Table) (k : Cell) : List (List Cell) :=
  t.rows.filter (fun r => decide (getCell t r "Tm" = k))

/-- `count` aggregation: the number of non-missing cells. -/
def countCells (cs : List Cell) : ℕ := (cs.filter (fun c => !isMissingC c)).length

/-- `sum` aggregation with pandas semantics: missing (NaN) cells are
skipped, an empty or all-missing column sums to 0, and infinities follow
IEEE addition (`+inf` with `-inf` gives NaN). -/
def sumCells (cs : List Cell) : Cell :=
  let vs := cs.filter (fun c => isNumericC c)
  if decide (Cell.pinf ∈ vs) && decide (Cell.ninf ∈ vs) then .missing
  else if decide (Cell.pinf ∈ vs) then .pinf
  else if decide (Cell.ninf ∈ vs) then .ninf
  else .num ((vs.map qOf).sum)

/-- `mean` aggregation with pandas semantics: missing (NaN) cells are
skipped, an empty or all-missing column has mean NaN, and infinities
follow IEEE arithmetic. -/
def meanCells (cs : List Cell) : Cell :=
  let vs := cs.filter (fun c => isNumericC c)
  if vs.isEmpty then .missing
  else if decide (Cell.pinf ∈ vs) && decide (Cell.ninf ∈ vs) then .missing
  else if decide (Cell.pinf ∈ vs) then .pinf
  else if decide (Cell.ninf ∈ vs) then .ninf
  else .num ((vs.map qOf).sum / (vs.length : ℚ))

/-- One aggregated row of `data.groupby('Tm').agg({'PPG': 'mean', 'Player':
'count', 'PTS': 'sum', 'G': 'mean'}).reset_index()`: the key, then the
four aggregates in the order of the dict. -/
def aggRow (t : Table) (k : Cell) : List Cell :=
  [k,
   meanCells ((groupRows t k).map (fun r => getCell t r "PPG")),
   Cell.num (countCells ((groupRows t k).map (fun r => getCell t r "Player"))),
   sumCells ((groupRows t k).map (fun r => getCell t r "PTS")),
   meanCells ((groupRows t k).map (fun r => getCell t r "G"))]

/-- The renamed columns of the aggregated table (Analysis.py line 174). -/
def team_columns : List String :=
  ["Team", "Avg_PPG_Per_Player", "Total_Players", "Total_Points", "Avg_Games_Played"]

/-- The per-row value of `data['PTS'] / data['G']` (Analysis.py line 163). -/
def ppgOf (t : Table) (r : List Cell) : Cell :=
  cellDiv (getCell t r "PTS") (getCell t r "G")

/-- `analyze_team_performance`, table part (Analysis.py lines 163–180):
derive `PPG = PTS / G` **in place on the caller's table** (line 163 has no
copy), group by `Tm`, aggregate, rename, sort by `Avg_PPG_Per_Player`
descending and add a leading `Rank` column.  The first component of the
result is the caller's table as the call leaves it (with the derived `PPG`
column); the second is the returned team table. -/
def analyze_team_performance (t : Table) : Table × Table :=
  let d := setOrAppendCol t "PPG" (ppgOf t)
  let team0 : Table := ⟨team_columns, (groupKeys d).map (aggRow d)⟩
  let sorted := sortValuesDesc team0 "Avg_PPG_Per_Player"
  (d, insertRank sorted)

/-- The whole of `analyze_team_performance` including its insight printing
(Analysis.py lines 186–190), which indexes `team_stats.iloc[0]` and
`team_stats.iloc[-1]`: on an empty aggregated table this raises
`IndexError`, modelled as `none`; otherwise the function completes. -/
def analyze_team_performance_run (t : Table) : Option (Table × Table) :=
  let p := analyze_team_performance t
  if p.2.rows.isEmpty then none else some p

/-! ### Loader and orchestrator (`load_data`, `main`) -/

/-- `load_data` (Analysis.py lines 10–36): the file at the fixed path is
modelled as `none` when absent (the `FileNotFoundError` branch returns
`None`) and as `some` parsed table when present. -/
def load_data (file : Option Table) : Option Table :=
  match file with
  | none => none
  | some d => some d

/-- What a run of `main` produced: which stages ran and which artifacts
exist afterwards. -/
structure RunResult where
  previewed : Bool
  cleaned : Option Table
  top_scorers : Option Table
  team_stats : Option Table
  chart_saved : Bool
  reported : Bool
deriving DecidableEq

/-- `main` (Analysis.py lines 282–310): load, and return early when the
loader yields `None` (no preview, no cleaning, no analysis, no chart, no
report); otherwise run the pipeline in order.  The `cleaned` field holds
the table the caller's `data` variable refers to when the summary report
runs — after `analyze_team_performance` has mutated it.  If the team
analysis raises (empty aggregate), the process dies there: no chart, no
report. -/
def mainRun (file : Option Table) : RunResult :=
  match load_data file with
  | none => ⟨false, none, none, none, false, false⟩
  | some data =>
    let cleaned := clean_data data
    let top := analyze_top_scorers cleaned 10
    match analyze_team_performance_run cleaned with
    | none => ⟨true, some cleaned, some top, none, false, false⟩
    | some (d2, ts) => ⟨true, some d2, some top, some ts, true, true⟩

/-! ### Decidable table predicates (hypotheses of the claims) -/

/-- Every row's cell in column `c` is a finite number. -/
def colAllNum (t : Table) (c : String) : Bool :=
  t.rows.all (fun r => isNumC (getCell t r c))

/-- The distinct non-missing `Tm` values of the table (groupby keys,
before the groupby key sort). -/
def distinctTms (t : Table) : List Cell :=
  ((tmValues t).filter (fun c => !isMissingC c)).dedup

/-- The shape `analyze_team_performance` receives from the pipeline: a
wellformed cleaned table with no `PPG` column yet, text team names,
non-missing players and numeric `PTS` and `G`. -/
def teamReady (t : Table) : Bool :=
  wellformedB t && !(decide ("PPG" ∈ t.cols)) &&
  t.rows.all (fun r =>
    !isMissingC (getCell t r "Player") && isTextC (getCell t r "Tm") &&
    isNumC (getCell t r "PTS") && isNumC (getCell t r "G"))

/-- No row has zero games played. -/
def noZeroG (t : Table) : Bool :=
  t.rows.all (fun r => decide (qOf (getCell t r "G") ≠ 0))

/-! ### Concrete sample tables (used by witnesses and counterexamples) -/

/-- A raw table whose single row has a malformed-text `G` value. -/
def badG : Table :=
  ⟨["Player", "Tm", "PTS", "G"],
   [[Cell.text "A", Cell.text "X", Cell.num 10, Cell.text "abc"]]⟩

/-- The cleaned table of spec Scenario A: three rows for team `X` with
`PTS = 10, 20, 30`, one row for team `Y` with `PTS = 5`, all with `G = 1`. -/
def tScenA : Table :=
  ⟨["Player", "Tm", "Year", "PTS", "G", "MP"],
   [[Cell.text "P1", Cell.text "X", Cell.num 2020, Cell.num 10, Cell.num 1, Cell.num 100],
    [Cell.text "P2", Cell.text "X", Cell.num 2020, Cell.num 20, Cell.num 1, Cell.num 100],
    [Cell.text "P3", Cell.text "X", Cell.num 2020, Cell.num 30, Cell.num 1, Cell.num 100],
    [Cell.text "P4", Cell.text "Y", Cell.num 2020, Cell.num 5, Cell.num 1, Cell.num 100]]⟩

/-- A cleaned table with a `G = 0` row (zero games played). -/
def tZeroG : Table :=
  ⟨["Player", "Tm", "Year", "PTS", "G", "MP"],
   [[Cell.text "P1", Cell.text "X", Cell.num 2020, Cell.num 7, Cell.num 0, Cell.num 100],
    [Cell.text "P2", Cell.text "Y", Cell.num 2020, Cell.num 9, Cell.num 3, Cell.num 100]]⟩

/-- A one-row cleaned table, as held by the caller of the team analysis. -/
def tMut : Table :=
  ⟨["Player", "Tm", "Year", "PTS", "G", "MP"],
   [[Cell.text "A", Cell.text "X", Cell.num 2020, Cell.num 10, Cell.num 2, Cell.num 50]]⟩

/-- A table with the usual columns and no rows at all. -/
def tEmpty : Table := ⟨["Player", "Tm", "Year", "PTS", "G", "MP"], []⟩

/-! ### Helper lemmas: column lookup -/

theorem findIdx?_some_get {l : List String} {c : String} {i : ℕ}
    (h : l.findIdx? (· = c) = some i) : ∃ hlt : i < l.length, l.get ⟨i, hlt⟩ = c := by
  obtain ⟨hlt, hfi⟩ := List.findIdx?_eq_some_iff_findIdx_eq.mp h
  subst hfi
  exact ⟨hlt, of_decide_eq_true (@List.findIdx_getElem _ _ l hlt)⟩

theorem findIdx?_ne_of_ne {l : List String} {a b : String} {i j : ℕ}
    (ha : l.findIdx? (· = a) = some i) (hb : l.findIdx? (· = b) = some j)
    (hab : a ≠ b) : i ≠ j := by
  intro hij
  subst hij
  obtain ⟨hlt, hga⟩ := findIdx?_some_get ha
  obtain ⟨hlt', hgb⟩ := findIdx?_some_get hb
  exact hab (hga ▸ hgb ▸ rfl)

/-! ### Helper lemmas: numeric coercion and `clean_data` -/

theorem toNumericCell_idem (c : Cell) : toNumericCell (toNumericCell c) = toNumericCell c := by
  cases c with
  | text s => cases h : parseNum s <;> simp [toNumericCell, h]
  | _ => rfl

theorem toNumericCell_not_text (c : Cell) : isTextC (toNumericCell c) = false := by
  cases c with
  | text s => cases h : parseNum s <;> simp [toNumericCell, h, isTextC]
  | _ => rfl

theorem numeric_of_toNumericCell_not_missing {c : Cell}
    (h : isMissingC (toNumericCell c) = false) : isNumericC (toNumericCell c) = true := by
  cases c with
  | text s => cases hp : parseNum s <;> simp_all [toNumericCell, hp, isMissingC, isNumericC]
  | _ => simp_all [toNumericCell, isMissingC, isNumericC]

theorem length_coerceRowStep (cols : List String) (r : List Cell) (c : String) :
    (coerceRowStep cols r c).length = r.length := by
  unfold coerceRowStep
  cases h : cols.findIdx? (· = c) <;> simp

theorem length_foldl_coerce (cols : List String) (cs : List String) (r : List Cell) :
    (cs.foldl (fun r c => coerceRowStep cols r c) r).length = r.length := by
  induction cs generalizing r with
  | nil => rfl
  | cons c cs ih => rw [List.foldl_cons, ih, length_coerceRowStep]

theorem length_rowCoerce (cols : List String) (r : List Cell) :
    (rowCoerce cols r).length = r.length :=
  length_foldl_coerce cols numeric_columns r

theorem getD_coerceRowStep (cols : List String) (r : List Cell) (c : String) (j : ℕ) :
    (coerceRowStep cols r c).getD j .missing =
      if cols.findIdx? (· = c) = some j then toNumericCell (r.getD j .missing)
      else r.getD j .missing := by
  unfold coerceRowStep
  cases h : cols.findIdx? (· = c) with
  | none => simp
  | some i =>
    by_cases hij : i = j
    · subst hij
      rw [if_pos rfl, List.getD_eq_getElem?_getD, List.getElem?_set, if_pos rfl,
        List.getD_eq_getElem?_getD]
      by_cases hlt : i < r.length
      · simp [hlt]
      · rw [if_neg hlt, List.getElem?_eq_none (by omega)]
        rfl
    · rw [if_neg (fun hc => hij (Option.some.inj hc)), List.getD_eq_getElem?_getD,
        List.getElem?_set, if_neg hij, List.getD_eq_getElem?_getD]

theorem getD_foldl_coerce (cols : List String) (cs : List String) (r : List Cell) (j : ℕ) :
    (cs.foldl (fun r c => coerceRowStep cols r c) r).getD j .missing =
      if cs.any (fun c => decide (cols.findIdx? (· = c) = some j))
      then toNumericCell (r.getD j .missing)
      else r.getD j .missing := by
  induction cs generalizing r with
  | nil => rfl
  | cons c cs ih =>
    rw [List.foldl_cons, ih, getD_coerceRowStep]
    by_cases h : cols.findIdx? (· = c) = some j
    · by_cases h2 : cs.any (fun c => decide (cols.findIdx? (· = c) = some j)) = true
      · simp [h, h2, toNumericCell_idem]
      · simp [h, h2]
    · by_cases h2 : cs.any (fun c => decide (cols.findIdx? (· = c) = some j)) = true
      · simp [h, h2]
      · simp [h, h2]

theorem getD_rowCoerce (cols : List String) (r : List Cell) (j : ℕ) :
    (rowCoerce cols r).getD j .missing =
      if numeric_columns.any (fun c => decide (cols.findIdx? (· = c) = some j))
      then toNumericCell (r.getD j .missing)
      else r.getD j .missing :=
  getD_foldl_coerce cols numeric_columns r j

theorem rowCoerce_idem (cols : List String) (r : List Cell) :
    rowCoerce cols (rowCoerce cols r) = rowCoerce cols r := by
  apply List.ext_getElem
  · rw [length_rowCoerce, length_rowCoerce]
  · intro n h1 h2
    rw [← List.getD_eq_getElem _ Cell.missing h1, ← List.getD_eq_getElem _ Cell.missing h2]
    simp only [getD_rowCoerce]
    by_cases h : numeric_columns.any (fun c => decide (cols.findIdx? (· = c) = some n)) = true
    · simp [h, toNumericCell_idem]
    · simp [h]

theorem cellAt_of_findIdx?_some {cols : List String} {r : List Cell} {c : String} {j : ℕ}
    (h : cols.findIdx? (· = c) = some j) : cellAt cols r c = r.getD j .missing := by
  unfold cellAt
  rw [h]

theorem cellAt_of_findIdx?_none {cols : List String} {r : List Cell} {c : String}
    (h : cols.findIdx? (· = c) = none) : cellAt cols r c = .missing := by
  unfold cellAt
  rw [h]

/-- The coercion step of `clean_data` leaves a non-numeric column unchanged. -/
theorem cellAt_rowCoerce_of_not_numeric (cols : List String) (r : List Cell) (c : String)
    (hc : ∀ c' ∈ numeric_columns, c' ≠ c) :
    cellAt cols (rowCoerce cols r) c = cellAt cols r c := by
  cases h : cols.findIdx? (· = c) with
  | none => rw [cellAt_of_findIdx?_none h, cellAt_of_findIdx?_none h]
  | some j =>
    rw [cellAt_of_findIdx?_some h, cellAt_of_findIdx?_some h, getD_rowCoerce, if_neg]
    intro hany
    obtain ⟨c', hc', hj⟩ := List.any_eq_true.mp hany
    exact absurd rfl (findIdx?_ne_of_ne (of_decide_eq_true hj) h (hc c' hc'))

/-- The coercion step of `clean_data` coerces a numeric column pointwise. -/
theorem cellAt_rowCoerce_of_numeric (cols : List String) (r : List Cell) (c : String)
    (hc : c ∈ numeric_columns) :
    cellAt cols (rowCoerce cols r) c = toNumericCell (cellAt cols r c) := by
  cases h : cols.findIdx? (· = c) with
  | none => rw [cellAt_of_findIdx?_none h, cellAt_of_findIdx?_none h]; rfl
  | some j =>
    rw [cellAt_of_findIdx?_some h, cellAt_of_findIdx?_some h, getD_rowCoerce, if_pos]
    exact List.any_eq_true.mpr ⟨c, hc, by simp [h]⟩

theorem foldl_coerceColumn (cs : List String) (t : Table) :
    cs.foldl coerceColumn t =
      ⟨t.cols, t.rows.map (fun r => cs.foldl (fun r c => coerceRowStep t.cols r c) r)⟩ := by
  induction cs generalizing t with
  | nil => cases t; simp
  | cons c cs ih =>
    rw [List.foldl_cons, ih]
    simp only [coerceColumn, List.map_map]
    rfl

/-- `clean_data` written as one filter–map–filter chain over the rows. -/
theorem clean_data_eq (t : Table) :
    clean_data t =
      ⟨t.cols, ((t.rows.filter (rowKeep t.cols critical_columns)).map
        (rowCoerce t.cols)).filter (rowKeep t.cols ["PTS"])⟩ := by
  show dropna (numeric_columns.foldl coerceColumn (dropna t critical_columns)) ["PTS"] = _
  rw [foldl_coerceColumn]
  rfl

theorem mem_clean_data {t : Table} {r : List Cell} :
    r ∈ (clean_data t).rows ↔
      ∃ r₀ ∈ t.rows, rowKeep t.cols critical_columns r₀ = true ∧
        r = rowCoerce t.cols r₀ ∧ rowKeep t.cols ["PTS"] r = true := by
  rw [clean_data_eq]
  constructor
  · intro h
    rw [List.mem_filter] at h
    obtain ⟨hm, hq⟩ := h
    rw [List.mem_map] at hm
    obtain ⟨r₀, hr₀, hco⟩ := hm
    rw [List.mem_filter] at hr₀
    exact ⟨r₀, hr₀.1, hr₀.2, hco.symm, hq⟩
  · rintro ⟨r₀, h0, hk, rfl, hq⟩
    rw [List.mem_filter]
    exact ⟨List.mem_map.mpr ⟨r₀, List.mem_filter.mpr ⟨h0, hk⟩, rfl⟩, hq⟩

theorem clean_data_cols (t : Table) : (clean_data t).cols = t.cols := by
  rw [clean_data_eq]

theorem getCell_clean_data (t : Table) (r : List Cell) (c : String) :
    getCell (clean_data t) r c = cellAt t.cols r c := by
  unfold getCell
  rw [clean_data_cols]

/-- A table on which the three stages of `clean_data` all act as the
identity is a fixed point of `clean_data`. -/
theorem clean_data_fix {u : Table}
    (h1 : ∀ r ∈ u.rows, rowKeep u.cols critical_columns r = true)
    (h2 : ∀ r ∈ u.rows, rowCoerce u.cols r = r)
    (h3 : ∀ r ∈ u.rows, rowKeep u.cols ["PTS"] r = true) :
    clean_data u = u := by
  rw [clean_data_eq]
  apply Table.ext'
  · rfl
  · show ((u.rows.filter _).map _).filter _ = u.rows
    rw [List.filter_eq_self.mpr h1, List.map_congr_left h2, List.map_id',
      List.filter_eq_self.mpr h3]

/-- Every row of a twice-cleaned table passes both `dropna` filters and is
fixed by the numeric coercion. -/
theorem clean_clean_row_facts (t : Table) :
    ∀ r ∈ (clean_data (clean_data t)).rows,
      rowKeep t.cols critical_columns r = true ∧
      rowCoerce t.cols r = r ∧
      rowKeep t.cols ["PTS"] r = true := by
  intro r hr
  obtain ⟨r₁, h1m, h1k, hrc, h1p⟩ := mem_clean_data.mp hr
  obtain ⟨r₀, _, _, hrc0, _⟩ := mem_clean_data.mp h1m
  rw [clean_data_cols] at h1k hrc h1p
  have hr0 : r = rowCoerce t.cols r₀ := by
    rw [hrc, hrc0]
    exact rowCoerce_idem _ _
  have hfix : rowCoerce t.cols r = r := by
    rw [hr0]
    exact rowCoerce_idem _ _
  have hr1 : r = r₁ := by rw [hrc, hrc0, rowCoerce_idem]
  exact ⟨hr1 ▸ h1k, hfix, h1p⟩

/-! ### Claim C4 -/

/-- C4 (confirmed): for every input table holding the critical columns,
`clean_data` returns at most as many rows as it was given, keeps the column
list unchanged, and every output row is an input row (as the numeric
coercion of `clean_data`'s own second step leaves it): no row is added. -/
theorem clean_data_row_reducing_column_preserving (t : Table)
    (hcols : critical_columns.all (fun c => t.cols.contains c) = true) :
    (clean_data t).rows.length ≤ t.rows.length ∧
    (clean_data t).cols = t.cols ∧
    ∀ r ∈ (clean_data t).rows, ∃ r₀ ∈ t.rows, r = rowCoerce t.cols r₀ := by
  refine ⟨?_, clean_data_cols t, ?_⟩
  · rw [clean_data_eq]
    refine le_trans (List.filter_sublist _).length_le ?_
    rw [List.length_map]
    exact (List.filter_sublist _).length_le
  · intro r hr
    obtain ⟨r₀, h0, _, rfl, _⟩ := mem_clean_data.mp hr
    exact ⟨r₀, h0, rfl⟩

/-- Witness for C4 at the concrete table `badG`. -/
theorem clean_data_row_reducing_column_preserving_witness :
    (critical_columns.all (fun c => badG.cols.contains c) = true) ∧
    ((clean_data badG).rows.length ≤ badG.rows.length ∧
     (clean_data badG).cols = badG.cols ∧
     ∀ r ∈ (clean_data badG).rows, ∃ r₀ ∈ badG.rows, r = rowCoerce badG.cols r₀) :=
  ⟨by decide, clean_data_row_reducing_column_preserving badG (by decide)⟩

/-! ### Claim C3 -/

/-- C3 (counterexample): the claim that every retained row has non-missing
`G` fails.  In `badG` the single row has the malformed text `"abc"` in
`G`: it survives the first `dropna` (the cell is non-missing text), the
coercion turns it into missing, and the final `dropna` re-checks only
`PTS` — so `clean_data` retains a row whose `G` is missing. -/
theorem clean_data_can_retain_missing_G :
    (clean_data badG).rows = [[Cell.text "A", Cell.text "X", Cell.num 10, Cell.missing]] ∧
    ∃ r ∈ (clean_data badG).rows, isMissingC (getCell (clean_data badG) r "G") = true := by
  constructor
  · decide
  · exact ⟨[Cell.text "A", Cell.text "X", Cell.num 10, Cell.missing], by decide, by decide⟩

/-- C3 (corrected, amended claim): every row retained by `clean_data` has
non-missing `Player`, `Tm` and numeric non-missing `PTS`; every coerced
column holds a numeric-or-missing value, never malformed text; and the
row's `G` was non-missing **in the raw input** — though it may be missing
in the output, since only `PTS` is re-checked after coercion. -/
theorem clean_data_retained_rows_invariant (t : Table)
    (hcols : critical_columns.all (fun c => t.cols.contains c) = true) :
    ∀ r ∈ (clean_data t).rows,
      isMissingC (getCell (clean_data t) r "Player") = false ∧
      isMissingC (getCell (clean_data t) r "Tm") = false ∧
      isMissingC (getCell (clean_data t) r "PTS") = false ∧
      isNumericC (getCell (clean_data t) r "PTS") = true ∧
      (∀ c ∈ numeric_columns, isTextC (getCell (clean_data t) r c) = false) ∧
      ∃ r₀ ∈ t.rows, r = rowCoerce t.cols r₀ ∧ isMissingC (cellAt t.cols r₀ "G") = false := by
  intro r hr
  obtain ⟨r₀, h0, hkeep, rfl, hpts⟩ := mem_clean_data.mp hr
  have hkeepAt : ∀ c ∈ critical_columns, isMissingC (cellAt t.cols r₀ c) = false := by
    intro c hc
    have := List.all_eq_true.mp hkeep c hc
    simpa using this
  have hPl : cellAt t.cols (rowCoerce t.cols r₀) "Player" = cellAt t.cols r₀ "Player" :=
    cellAt_rowCoerce_of_not_numeric t.cols r₀ "Player" (by decide)
  have hTm : cellAt t.cols (rowCoerce t.cols r₀) "Tm" = cellAt t.cols r₀ "Tm" :=
    cellAt_rowCoerce_of_not_numeric t.cols r₀ "Tm" (by decide)
  have hPTS : cellAt t.cols (rowCoerce t.cols r₀) "PTS" = toNumericCell (cellAt t.cols r₀ "PTS") :=
    cellAt_rowCoerce_of_numeric t.cols r₀ "PTS" (by decide)
  have hptsAt : isMissingC (cellAt t.cols (rowCoerce t.cols r₀) "PTS") = false := by
    have := List.all_eq_true.mp hpts "PTS" (by decide)
    simpa using this
  refine ⟨?_, ?_, ?_, ?_, ?_, r₀, h0, rfl, hkeepAt "G" (by decide)⟩
  · rw [getCell_clean_data, hPl]
    exact hkeepAt "Player" (by decide)
  · rw [getCell_clean_data, hTm]
    exact hkeepAt "Tm" (by decide)
  · rw [getCell_clean_data]
    exact hptsAt
  · rw [getCell_clean_data, hPTS]
    apply numeric_of_toNumericCell_not_missing
    rw [← hPTS]
    exact hptsAt
  · intro c hc
    rw [getCell_clean_data, cellAt_rowCoerce_of_numeric t.cols r₀ c hc]
    exact toNumericCell_not_text _

/-- Witness for the amended C3 at the concrete table `badG`. -/
theorem clean_data_retained_rows_invariant_witness :
    (critical_columns.all (fun c => badG.cols.contains c) = true) ∧
    (∀ r ∈ (clean_data badG).rows,
      isMissingC (getCell (clean_data badG) r "Player") = false ∧
      isMissingC (getCell (clean_data badG) r "Tm") = false ∧
      isMissingC (getCell (clean_data badG) r "PTS") = false ∧
      isNumericC (getCell (clean_data badG) r "PTS") = true ∧
      (∀ c ∈ numeric_columns, isTextC (getCell (clean_data badG) r c) = false) ∧
      ∃ r₀ ∈ badG.rows, r = rowCoerce badG.cols r₀ ∧
        isMissingC (cellAt badG.cols r₀ "G") = false) :=
  ⟨by decide, clean_data_retained_rows_invariant badG (by decide)⟩

/-! ### Claim C6 -/

/-- C6 (counterexample): `clean_data` is not idempotent.  On `badG` the
first application keeps the row (its `G` coerces from the text `"abc"` to
missing, and only `PTS` is re-checked), while the second application's
`dropna` sees the now-missing `G` and removes it. -/
theorem clean_data_not_idempotent :
    (clean_data badG).rows.length = 1 ∧
    (clean_data (clean_data badG)).rows.length = 0 ∧
    clean_data (clean_data badG) ≠ clean_data badG := by
  refine ⟨by decide, by decide, ?_⟩
  intro h
  have := congrArg (fun u => u.rows.length) h
  simp only at this
  rw [show (clean_data (clean_data badG)).rows.length = 0 by decide,
    show (clean_data badG).rows.length = 1 by decide] at this
  exact absurd this (by decide)

/-- C6 (corrected, amended claim): `clean_data` reaches a fixed point after
two applications — a twice-cleaned table is unchanged by further cleaning
(equivalently, `clean_data` is idempotent on every table all of whose
retained rows keep a non-missing `G` through coercion; a single
application need not be a fixed point, as rows whose `G` coerces to
missing survive once but not twice). -/
theorem clean_data_twice_is_fixed_point (t : Table) :
    clean_data (clean_data (clean_data t)) = clean_data (clean_data t) := by
  apply clean_data_fix <;> intro r hr <;>
    rw [clean_data_cols, clean_data_cols] <;>
    obtain ⟨hk1, hfix, hk2⟩ := clean_clean_row_facts t r hr
  · exact hk1
  · exact hfix
  · exact hk2

/-! ### Helper lemmas: tagging, ranking and the descending sort -/

theorem tagFrom_map_snd (n : ℕ) (l : List (List Cell)) :
    (tagFrom n l).map Prod.snd = l := by
  induction l generalizing n with
  | nil => rfl
  | cons r rs ih => simp [tagFrom, ih]

theorem length_tagFrom (n : ℕ) (l : List (List Cell)) :
    (tagFrom n l).length = l.length := by
  induction l generalizing n with
  | nil => rfl
  | cons r rs ih => simp [tagFrom, ih]

theorem mem_tagFrom_snd {n : ℕ} {l : List (List Cell)} {p : ℕ × List Cell}
    (h : p ∈ tagFrom n l) : p.2 ∈ l := by
  have : p.2 ∈ (tagFrom n l).map Prod.snd := List.mem_map.mpr ⟨p, h, rfl⟩
  rwa [tagFrom_map_snd] at this

theorem pairwise_tagFrom_of_pairwise {R : List Cell → List Cell → Prop} {l : List (List Cell)}
    (n : ℕ) (h : List.Pairwise R l) :
    List.Pairwise (fun p q => R p.2 q.2) (tagFrom n l) := by
  have := (tagFrom_map_snd n l) ▸ h
  exact List.pairwise_map.mp this

theorem rankRows_eq_map_tagFrom (k : ℕ) (l : List (List Cell)) :
    rankRows k l = (tagFrom k l).map (fun p => Cell.num p.1 :: p.2) := by
  induction l generalizing k with
  | nil => rfl
  | cons r rs ih => simp [rankRows, tagFrom, ih]

theorem length_rankRows (k : ℕ) (l : List (List Cell)) :
    (rankRows k l).length = l.length := by
  rw [rankRows_eq_map_tagFrom, List.length_map, length_tagFrom]

theorem rank_column (k : ℕ) (l : List (List Cell)) :
    (rankRows k l).map (fun r => r.getD 0 .missing) =
      (List.range' k l.length).map (fun i : ℕ => Cell.num (i : ℚ)) := by
  induction l generalizing k with
  | nil => rfl
  | cons r rs ih =>
    simp only [rankRows, List.map_cons, List.getD_cons_zero, List.length_cons,
      List.range'_succ, ih]

theorem mem_rankRows {k : ℕ} {l : List (List Cell)} {r : List Cell}
    (h : r ∈ rankRows k l) : ∃ j r₀, r = Cell.num j :: r₀ ∧ r₀ ∈ l := by
  rw [rankRows_eq_map_tagFrom] at h
  obtain ⟨p, hp, rfl⟩ := List.mem_map.mp h
  exact ⟨p.1, p.2, rfl, mem_tagFrom_snd hp⟩

theorem exists_mem_rankRows {k : ℕ} {l : List (List Cell)} {r₀ : List Cell}
    (h : r₀ ∈ l) : ∃ j, Cell.num j :: r₀ ∈ rankRows k l := by
  induction l generalizing k with
  | nil => simp at h
  | cons r rs ih =>
    rcases List.mem_cons.mp h with h | h
    · subst h
      exact ⟨k, by simp only [rankRows]; exact List.mem_cons_self _ _⟩
    · obtain ⟨j, hj⟩ := ih h
      exact ⟨j, by simp only [rankRows]; exact List.mem_cons_of_mem _ hj⟩

theorem pairwise_rankRows {R : List Cell → List Cell → Prop} {l : List (List Cell)} (k : ℕ)
    (h : List.Pairwise R l) :
    List.Pairwise (fun a b => ∀ x y, a = Cell.num x :: y → ∀ u v, b = Cell.num u :: v → R y v)
      (rankRows k l) := by
  rw [rankRows_eq_map_tagFrom]
  rw [List.pairwise_map]
  refine (pairwise_tagFrom_of_pairwise k h).imp ?_
  intro p q hpq
  intro x y hxy u v huv
  cases hxy
  cases huv
  exact hpq

theorem sortedTagged_eq (t : Table) (c : String) :
    sortedTagged t c =
      List.insertionSort (descRel t.cols c)
        ((tagFrom 0 t.rows).filter (fun p => !isMissingC (cellAt t.cols p.2 c))) ++
      (tagFrom 0 t.rows).filter (fun p => isMissingC (cellAt t.cols p.2 c)) := rfl

theorem sortedTagged_perm (t : Table) (c : String) :
    (sortedTagged t c).Perm (tagFrom 0 t.rows) := by
  rw [sortedTagged_eq]
  refine List.Perm.trans (List.Perm.append (List.perm_insertionSort _ _) (List.Perm.refl _)) ?_
  have h2 : (tagFrom 0 t.rows).filter (fun p => isMissingC (cellAt t.cols p.2 c)) =
      (tagFrom 0 t.rows).filter
        (fun p => !(fun q => !isMissingC (cellAt t.cols q.2 c)) p) := by
    apply List.filter_congr
    intro p _
    simp
  rw [h2]
  exact List.filter_append_perm _ _

theorem sortValuesDesc_rows_perm (t : Table) (c : String) :
    ((sortValuesDesc t c).rows).Perm t.rows := by
  have := (sortedTagged_perm t c).map Prod.snd
  rwa [tagFrom_map_snd] at this

theorem sortValuesDesc_cols (t : Table) (c : String) : (sortValuesDesc t c).cols = t.cols := rfl

theorem descRel_key_le {cols : List String} {c : String} {p q : ℕ × List Cell}
    (h : descRel cols c p q) :
    cellLEb (cellAt cols q.2 c) (cellAt cols p.2 c) = true := by
  unfold descRel descKey at h
  rw [Prod.Lex.le_iff] at h
  unfold cellLEb
  rcases h with h | ⟨h, _⟩
  · rw [OrderDual.toDual_lt_toDual] at h
    exact decide_eq_true h.le
  · exact decide_eq_true (le_of_eq (OrderDual.toDual_inj.mp h).symm)

theorem sortedTagged_pairwise_descRel_of_no_nan (t : Table) (c : String)
    (h : ∀ r ∈ t.rows, isMissingC (cellAt t.cols r c) = false) :
    List.Pairwise (descRel t.cols c) (sortedTagged t c) := by
  have h1 : (tagFrom 0 t.rows).filter (fun p => !isMissingC (cellAt t.cols p.2 c)) =
      tagFrom 0 t.rows := by
    apply List.filter_eq_self.mpr
    intro p hp
    rw [h p.2 (mem_tagFrom_snd hp)]
    rfl
  have h2 : (tagFrom 0 t.rows).filter (fun p => isMissingC (cellAt t.cols p.2 c)) = [] := by
    apply List.filter_eq_nil_iff.mpr
    intro p hp
    rw [h p.2 (mem_tagFrom_snd hp)]
    exact Bool.false_ne_true
  rw [sortedTagged_eq, h1, h2, List.append_nil]
  exact List.sorted_insertionSort _ _

/-! ### Helper lemmas: cells and the selected columns -/

theorem isMissingC_of_isNumC {c : Cell} (h : isNumC c = true) : isMissingC c = false := by
  cases c <;> simp_all [isNumC, isMissingC]

theorem isNumC_exists {c : Cell} (h : isNumC c = true) : ∃ q, c = Cell.num q := by
  cases c <;> simp_all [isNumC]

theorem cellLEb_num_iff (a b : ℚ) : cellLEb (.num a) (.num b) = true ↔ a ≤ b := by
  unfold cellLEb cellKey
  rw [decide_eq_true_eq]
  constructor
  · intro h
    rcases (Prod.Lex.le_iff _ _).mp h with h | ⟨_, h2⟩
    · exact absurd h (lt_irrefl _)
    · rcases (Prod.Lex.le_iff _ _).mp h2 with h3 | ⟨h3, _⟩
      · exact le_of_lt h3
      · exact le_of_eq h3
  · intro h
    apply (Prod.Lex.le_iff _ _).mpr
    refine Or.inr ⟨rfl, ?_⟩
    apply (Prod.Lex.le_iff _ _).mpr
    rcases lt_or_eq_of_le h with h | h
    · exact Or.inl h
    · exact Or.inr ⟨h, le_refl _⟩

theorem selectCols_rows (t : Table) (cs : List String) :
    (selectCols t cs).rows = t.rows.map (fun r => cs.map (fun c => getCell t r c)) := rfl

theorem selectCols_cols (t : Table) (cs : List String) : (selectCols t cs).cols = cs := rfl

theorem cellAt_select_PTS (t : Table) (r : List Cell) :
    cellAt top_scorer_columns (top_scorer_columns.map (fun c => getCell t r c)) "PTS" =
      getCell t r "PTS" := rfl

theorem cellAt_rank_cons_PTS (x : Cell) (r : List Cell) :
    cellAt ("Rank" :: top_scorer_columns) (x :: r) "PTS" =
      cellAt top_scorer_columns r "PTS" := rfl

/-! ### Claim C2 -/

/-- C2 (confirmed): on any table whose `PTS` column is numeric in every
row, `analyze_top_scorers t n` returns exactly `min n (rows t)` rows, its
`Rank` column is exactly `1 .. length` in order with no gaps or repeats,
its rows are sorted by `PTS` non-increasing, and the output's `PTS` cells
are all numeric. -/
theorem analyze_top_scorers_spec (t : Table) (n : ℕ)
    (hnum : colAllNum t "PTS" = true) :
    (analyze_top_scorers t n).rows.length = min n t.rows.length ∧
    ((analyze_top_scorers t n).rows.map (fun r => r.getD 0 .missing) =
      (List.range' 1 (analyze_top_scorers t n).rows.length).map
        (fun i : ℕ => Cell.num (i : ℚ))) ∧
    List.Pairwise (fun r1 r2 =>
        qOf (getCell (analyze_top_scorers t n) r2 "PTS") ≤
        qOf (getCell (analyze_top_scorers t n) r1 "PTS"))
      (analyze_top_scorers t n).rows ∧
    colAllNum (analyze_top_scorers t n) "PTS" = true := by
  have hnum' : ∀ r ∈ t.rows, isNumC (getCell t r "PTS") = true :=
    fun r hr => List.all_eq_true.mp hnum r hr
  have hselnum : ∀ r' ∈ (selectCols t top_scorer_columns).rows,
      isNumC (cellAt top_scorer_columns r' "PTS") = true := by
    intro r' hr'
    rw [selectCols_rows] at hr'
    obtain ⟨r, hr, rfl⟩ := List.mem_map.mp hr'
    rw [cellAt_select_PTS]
    exact hnum' r hr
  have hsortmem : ∀ r' ∈ (sortedTagged (selectCols t top_scorer_columns) "PTS").map Prod.snd,
      r' ∈ (selectCols t top_scorer_columns).rows := by
    intro r' hr'
    have hperm := (sortedTagged_perm (selectCols t top_scorer_columns) "PTS").map Prod.snd
    rw [tagFrom_map_snd] at hperm
    exact hperm.mem_iff.mp hr'
  have htakemem : ∀ r' ∈ ((sortedTagged (selectCols t top_scorer_columns) "PTS").map
        Prod.snd).take n,
      r' ∈ (selectCols t top_scorer_columns).rows :=
    fun r' hr' => hsortmem r' (List.mem_of_mem_take hr')
  have hrows : (analyze_top_scorers t n).rows =
      rankRows 1 (((sortedTagged (selectCols t top_scorer_columns) "PTS").map
        Prod.snd).take n) := rfl
  have hlen : (analyze_top_scorers t n).rows.length = min n t.rows.length := by
    rw [hrows, length_rankRows, List.length_take, List.length_map,
      (sortedTagged_perm _ _).length_eq, length_tagFrom, selectCols_rows, List.length_map]
  refine ⟨hlen, ?_, ?_, ?_⟩
  · rw [hrows, length_rankRows]
    exact rank_column 1 _
  · have hnoNan : ∀ r ∈ (selectCols t top_scorer_columns).rows,
        isMissingC (cellAt (selectCols t top_scorer_columns).cols r "PTS") = false :=
      fun r hr => isMissingC_of_isNumC (hselnum r hr)
    have hpw0 := sortedTagged_pairwise_descRel_of_no_nan
      (selectCols t top_scorer_columns) "PTS" hnoNan
    have hpwS : List.Pairwise (fun r1 r2 =>
        qOf (cellAt top_scorer_columns r2 "PTS") ≤ qOf (cellAt top_scorer_columns r1 "PTS"))
        ((sortedTagged (selectCols t top_scorer_columns) "PTS").map Prod.snd) := by
      rw [List.pairwise_map]
      refine hpw0.imp_of_mem ?_
      intro p q hp hq hpq
      have hkp := hselnum p.2 (hsortmem p.2 (List.mem_map.mpr ⟨p, hp, rfl⟩))
      have hkq := hselnum q.2 (hsortmem q.2 (List.mem_map.mpr ⟨q, hq, rfl⟩))
      obtain ⟨qp, hqp⟩ := isNumC_exists hkp
      obtain ⟨qq, hqq⟩ := isNumC_exists hkq
      have hle := descRel_key_le hpq
      rw [selectCols_cols] at hle
      rw [hqp, hqq] at hle ⊢
      rw [cellLEb_num_iff] at hle
      simpa [qOf] using hle
    have hpwTake := List.Pairwise.sublist (List.take_sublist n _) hpwS
    rw [hrows]
    refine (pairwise_rankRows 1 hpwTake).imp_of_mem ?_
    intro a b ha hb hab
    obtain ⟨x, y, hxy, _⟩ := mem_rankRows ha
    obtain ⟨u, v, huv, _⟩ := mem_rankRows hb
    have := hab x y hxy u v huv
    subst hxy
    subst huv
    show qOf (cellAt ("Rank" :: top_scorer_columns) (Cell.num u :: v) "PTS") ≤
      qOf (cellAt ("Rank" :: top_scorer_columns) (Cell.num x :: y) "PTS")
    rw [cellAt_rank_cons_PTS, cellAt_rank_cons_PTS]
    exact this
  · apply List.all_eq_true.mpr
    intro r hr
    rw [hrows] at hr
    obtain ⟨j, r₀, rfl, hr₀⟩ := mem_rankRows hr
    show isNumC (cellAt ("Rank" :: top_scorer_columns) (Cell.num j :: r₀) "PTS") = true
    rw [cellAt_rank_cons_PTS]
    exact hselnum r₀ (htakemem r₀ hr₀)

/-- Witness for C2 at the concrete table `tScenA` with `n = 2`. -/
theorem analyze_top_scorers_spec_witness :
    colAllNum tScenA "PTS" = true ∧
    ((analyze_top_scorers tScenA 2).rows.length = min 2 tScenA.rows.length ∧
     ((analyze_top_scorers tScenA 2).rows.map (fun r => r.getD 0 .missing) =
       (List.range' 1 (analyze_top_scorers tScenA 2).rows.length).map
         (fun i : ℕ => Cell.num (i : ℚ))) ∧
     List.Pairwise (fun r1 r2 =>
         qOf (getCell (analyze_top_scorers tScenA 2) r2 "PTS") ≤
         qOf (getCell (analyze_top_scorers tScenA 2) r1 "PTS"))
       (analyze_top_scorers tScenA 2).rows ∧
     colAllNum (analyze_top_scorers tScenA 2) "PTS" = true) :=
  ⟨by decide, analyze_top_scorers_spec tScenA 2 (by decide)⟩

/-! ### Helper lemmas: team analysis structure -/

theorem analyze_team_performance_eq (t : Table) :
    analyze_team_performance t =
      (setOrAppendCol t "PPG" (ppgOf t),
       insertRank (sortValuesDesc
         ⟨team_columns,
          (groupKeys (setOrAppendCol t "PPG" (ppgOf t))).map
            (aggRow (setOrAppendCol t "PPG" (ppgOf t)))⟩
         "Avg_PPG_Per_Player")) := rfl

theorem setOrAppendCol_rows_nil {t : Table} (c : String) (f : List Cell → Cell)
    (h : t.rows = []) : (setOrAppendCol t c f).rows = [] := by
  unfold setOrAppendCol
  cases hf : t.cols.findIdx? (· = c) <;> simp [h]

theorem setOrAppendCol_absent {t : Table} {c : String} (f : List Cell → Cell)
    (h : t.cols.findIdx? (· = c) = none) :
    setOrAppendCol t c f = ⟨t.cols ++ [c], t.rows.map (fun r => r ++ [f r])⟩ := by
  unfold setOrAppendCol
  rw [h]

theorem findIdx?_eq_none_of_not_mem {l : List String} {c : String} (h : c ∉ l) :
    l.findIdx? (· = c) = none :=
  List.findIdx?_eq_none_iff.mpr (fun x hx => decide_eq_false (fun he => h (he ▸ hx)))

theorem isMissingC_of_isTextC {c : Cell} (h : isTextC c = true) : isMissingC c = false := by
  cases c <;> simp_all [isTextC, isMissingC]

theorem eq_num_qOf_of_isNumC {c : Cell} (h : isNumC c = true) : c = Cell.num (qOf c) := by
  cases c <;> simp_all [isNumC, qOf]

theorem findIdx?_some_of_not_missing {cols : List String} {r : List Cell} {c : String}
    (h : isMissingC (cellAt cols r c) = false) : ∃ i, cols.findIdx? (· = c) = some i := by
  cases hf : cols.findIdx? (· = c) with
  | none =>
    rw [cellAt_of_findIdx?_none hf] at h
    simp [isMissingC] at h
  | some i => exact ⟨i, rfl⟩

/-- Appending a column (name and cell) does not change the lookup of a
column that is found among the original ones. -/
theorem cellAt_append_found {cols : List String} {r : List Cell} {c : String} {i : ℕ}
    (s : String) (x : Cell) (hf : cols.findIdx? (· = c) = some i)
    (hlen : cols.length ≤ r.length) :
    cellAt (cols ++ [s]) (r ++ [x]) c = cellAt cols r c := by
  have hi : i < cols.length := (List.findIdx?_eq_some_iff_findIdx_eq.mp hf).1
  have hf2 : (cols ++ [s]).findIdx? (· = c) = some i := by
    rw [List.findIdx?_append, hf]
    rfl
  rw [cellAt_of_findIdx?_some hf2, cellAt_of_findIdx?_some hf]
  exact List.getD_append _ _ _ _ (lt_of_lt_of_le hi hlen)

/-- Looking up the freshly appended `PPG` column yields the appended cell. -/
theorem cellAt_append_PPG {cols : List String} {r : List Cell} (x : Cell)
    (hnone : cols.findIdx? (· = "PPG") = none) (hlen : r.length = cols.length) :
    cellAt (cols ++ ["PPG"]) (r ++ [x]) "PPG" = x := by
  have hf2 : (cols ++ ["PPG"]).findIdx? (· = "PPG") = some cols.length := by
    rw [List.findIdx?_append, hnone]
    simp
  rw [cellAt_of_findIdx?_some hf2]
  rw [List.getD_append_right _ _ _ _ (by omega)]
  have h0 : cols.length - r.length = 0 := by omega
  rw [h0]
  rfl

theorem teamReady_facts {t : Table} (h : teamReady t = true) :
    (∀ r ∈ t.rows, r.length = t.cols.length) ∧ "PPG" ∉ t.cols ∧
    ∀ r ∈ t.rows,
      isMissingC (getCell t r "Player") = false ∧ isTextC (getCell t r "Tm") = true ∧
      isNumC (getCell t r "PTS") = true ∧ isNumC (getCell t r "G") = true := by
  unfold teamReady wellformedB at h
  simp only [Bool.and_eq_true, List.all_eq_true, Bool.not_eq_true', decide_eq_false_iff_not]
    at h
  obtain ⟨⟨hw, hnp⟩, hrows⟩ := h
  refine ⟨fun r hr => by simpa using hw r hr, hnp, fun r hr => ?_⟩
  obtain ⟨⟨⟨h1, h2⟩, h3⟩, h4⟩ := hrows r hr
  exact ⟨by simpa using h1, h2, h3, h4⟩

/-- The numeric-only mean of finite numeric cells. -/
theorem meanCells_num (qs : List ℚ) (h : qs ≠ []) :
    meanCells (qs.map Cell.num) = .num (qs.sum / (qs.length : ℚ)) := by
  have hfil : (qs.map Cell.num).filter (fun c => isNumericC c) = qs.map Cell.num := by
    apply List.filter_eq_self.mpr
    intro c hc
    obtain ⟨q, _, rfl⟩ := List.mem_map.mp hc
    rfl
  have hpinf : decide (Cell.pinf ∈ qs.map Cell.num) = false := decide_eq_false (by simp)
  have hninf : decide (Cell.ninf ∈ qs.map Cell.num) = false := decide_eq_false (by simp)
  have hemp : (qs.map Cell.num).isEmpty = false := by
    cases qs with
    | nil => exact absurd rfl h
    | cons a l => rfl
  have hmap : (qs.map Cell.num).map qOf = qs := by
    rw [List.map_map]
    exact (List.map_congr_left (fun a _ => rfl)).trans (List.map_id qs)
  simp [meanCells, hfil, hpinf, hninf, hemp, hmap]

/-- The numeric-only sum of finite numeric cells. -/
theorem sumCells_num (qs : List ℚ) :
    sumCells (qs.map Cell.num) = .num qs.sum := by
  have hfil : (qs.map Cell.num).filter (fun c => isNumericC c) = qs.map Cell.num := by
    apply List.filter_eq_self.mpr
    intro c hc
    obtain ⟨q, _, rfl⟩ := List.mem_map.mp hc
    rfl
  have hpinf : decide (Cell.pinf ∈ qs.map Cell.num) = false := decide_eq_false (by simp)
  have hninf : decide (Cell.ninf ∈ qs.map Cell.num) = false := decide_eq_false (by simp)
  have hmap : (qs.map Cell.num).map qOf = qs := by
    rw [List.map_map]
    exact (List.map_congr_left (fun a _ => rfl)).trans (List.map_id qs)
  simp [sumCells, hfil, hpinf, hninf, hmap]

/-- `count` on a list of non-missing cells is its length. -/
theorem countCells_of_no_missing (cs : List Cell) (h : ∀ c ∈ cs, isMissingC c = false) :
    countCells cs = cs.length := by
  unfold countCells
  rw [List.filter_eq_self.mpr (fun c hc => by rw [h c hc]; rfl)]

theorem cellDiv_num_ne_zero {p g : ℚ} (hg : g ≠ 0) :
    cellDiv (.num p) (.num g) = .num (p / g) := by
  show (if g = 0 then (if 0 < p then Cell.pinf else if p < 0 then Cell.ninf else Cell.missing)
        else Cell.num (p / g)) = Cell.num (p / g)
  rw [if_neg hg]

theorem d_table_eq (t : Table) (hnp : "PPG" ∉ t.cols) :
    setOrAppendCol t "PPG" (ppgOf t) =
      ⟨t.cols ++ ["PPG"], t.rows.map (fun r => r ++ [ppgOf t r])⟩ :=
  setOrAppendCol_absent _ (findIdx?_eq_none_of_not_mem hnp)

theorem d_rows_eq (t : Table) (hnp : "PPG" ∉ t.cols) :
    (setOrAppendCol t "PPG" (ppgOf t)).rows = t.rows.map (fun r => r ++ [ppgOf t r]) := by
  rw [d_table_eq t hnp]

/-- Lookups of columns present before the in-place `PPG` assignment are
unchanged by it. -/
theorem getCell_d_found (t : Table) (hnp : "PPG" ∉ t.cols)
    {r : List Cell} (hlen : r.length = t.cols.length) {c : String}
    (hc : isMissingC (getCell t r c) = false) :
    getCell (setOrAppendCol t "PPG" (ppgOf t)) (r ++ [ppgOf t r]) c = getCell t r c := by
  obtain ⟨i, hi⟩ := findIdx?_some_of_not_missing hc
  show cellAt (setOrAppendCol t "PPG" (ppgOf t)).cols (r ++ [ppgOf t r]) c = cellAt t.cols r c
  rw [d_table_eq t hnp]
  exact cellAt_append_found _ _ hi (le_of_eq hlen.symm)

/-- Looking up the derived `PPG` column yields the per-row `PTS / G`. -/
theorem getCell_d_PPG (t : Table) (hnp : "PPG" ∉ t.cols)
    {r : List Cell} (hlen : r.length = t.cols.length) :
    getCell (setOrAppendCol t "PPG" (ppgOf t)) (r ++ [ppgOf t r]) "PPG" = ppgOf t r := by
  show cellAt (setOrAppendCol t "PPG" (ppgOf t)).cols (r ++ [ppgOf t r]) "PPG" = ppgOf t r
  rw [d_table_eq t hnp]
  exact cellAt_append_PPG _ (findIdx?_eq_none_of_not_mem hnp) hlen

/-- The in-place `PPG` assignment leaves the `Tm` column as it was. -/
theorem tmValues_d (t : Table) (h : teamReady t = true) :
    tmValues (setOrAppendCol t "PPG" (ppgOf t)) = tmValues t := by
  obtain ⟨hw, hnp, hfacts⟩ := teamReady_facts h
  unfold tmValues
  rw [d_rows_eq t hnp, List.map_map]
  apply List.map_congr_left
  intro r hr
  exact getCell_d_found t hnp (hw r hr) (isMissingC_of_isTextC (hfacts r hr).2.1)

/-- The groupby keys of the team analysis are, up to the key sort, the
distinct `Tm` values of the caller's table. -/
theorem groupKeys_d_perm (t : Table) (h : teamReady t = true) :
    (groupKeys (setOrAppendCol t "PPG" (ppgOf t))).Perm (distinctTms t) := by
  unfold groupKeys
  rw [tmValues_d t h]
  exact List.perm_insertionSort _ _

/-- Grouping the mutated table by a key selects exactly the (extended)
rows the original table's grouping selects. -/
theorem groupRows_d (t : Table) (h : teamReady t = true) (k : Cell) :
    groupRows (setOrAppendCol t "PPG" (ppgOf t)) k =
      (groupRows t k).map (fun r => r ++ [ppgOf t r]) := by
  obtain ⟨hw, hnp, hfacts⟩ := teamReady_facts h
  unfold groupRows
  rw [d_rows_eq t hnp, List.filter_map]
  exact congrArg (List.map _) (List.filter_congr (fun r hr => by
    show decide (getCell _ (r ++ [ppgOf t r]) "Tm" = k) = decide (getCell t r "Tm" = k)
    rw [getCell_d_found t hnp (hw r hr) (isMissingC_of_isTextC (hfacts r hr).2.1)]))

theorem mem_groupRows_rows {t : Table} {k : Cell} {r : List Cell}
    (hr : r ∈ groupRows t k) : r ∈ t.rows :=
  (List.mem_filter.mp hr).1

theorem groupRows_ne_nil {t : Table} {k : Cell} (hk : k ∈ distinctTms t) :
    groupRows t k ≠ [] := by
  unfold distinctTms at hk
  have hk2 := List.mem_filter.mp (List.mem_dedup.mp hk)
  obtain ⟨r, hr, hrk⟩ := List.mem_map.mp hk2.1
  intro hnil
  have : r ∈ groupRows t k := List.mem_filter.mpr ⟨hr, decide_eq_true hrk⟩
  rw [hnil] at this
  simp at this

/-- Full characterization of one aggregated team row, in terms of the
caller's table, under the pipeline hypotheses (cleaned shape, no zero
games). -/
theorem aggRow_characterization (t : Table) (h : teamReady t = true) (hg : noZeroG t = true)
    (k : Cell) (hk : k ∈ groupKeys (setOrAppendCol t "PPG" (ppgOf t))) :
    k ∈ distinctTms t ∧
    aggRow (setOrAppendCol t "PPG" (ppgOf t)) k =
      [k,
       Cell.num ((((groupRows t k).map
         (fun row => qOf (getCell t row "PTS") / qOf (getCell t row "G"))).sum) /
         ((groupRows t k).length : ℚ)),
       Cell.num ((groupRows t k).length : ℚ),
       Cell.num (((groupRows t k).map (fun row => qOf (getCell t row "PTS"))).sum),
       Cell.num ((((groupRows t k).map (fun row => qOf (getCell t row "G"))).sum) /
         ((groupRows t k).length : ℚ))] := by
  obtain ⟨hw, hnp, hfacts⟩ := teamReady_facts h
  have hkd : k ∈ distinctTms t := by
    have := List.mem_insertionSort _ |>.mp hk
    unfold distinctTms
    rwa [tmValues_d t h] at this
  have hne : groupRows t k ≠ [] := groupRows_ne_nil hkd
  have hppgcells : (groupRows (setOrAppendCol t "PPG" (ppgOf t)) k).map
        (fun r => getCell (setOrAppendCol t "PPG" (ppgOf t)) r "PPG") =
      ((groupRows t k).map
        (fun row => qOf (getCell t row "PTS") / qOf (getCell t row "G"))).map Cell.num := by
    rw [groupRows_d t h, List.map_map, List.map_map]
    apply List.map_congr_left
    intro r hr
    have hrt := mem_groupRows_rows hr
    show getCell _ (r ++ [ppgOf t r]) "PPG" =
      Cell.num (qOf (getCell t r "PTS") / qOf (getCell t r "G"))
    rw [getCell_d_PPG t hnp (hw r hrt)]
    obtain ⟨p, hp⟩ := isNumC_exists (hfacts r hrt).2.2.1
    obtain ⟨gq, hgq⟩ := isNumC_exists (hfacts r hrt).2.2.2
    have hgz : qOf (getCell t r "G") ≠ 0 := of_decide_eq_true (List.all_eq_true.mp hg r hrt)
    rw [hgq] at hgz
    unfold ppgOf
    rw [hp, hgq]
    exact cellDiv_num_ne_zero hgz
  have hplayers : (groupRows (setOrAppendCol t "PPG" (ppgOf t)) k).map
        (fun r => getCell (setOrAppendCol t "PPG" (ppgOf t)) r "Player") =
      (groupRows t k).map (fun r => getCell t r "Player") := by
    rw [groupRows_d t h, List.map_map]
    apply List.map_congr_left
    intro r hr
    have hrt := mem_groupRows_rows hr
    exact getCell_d_found t hnp (hw r hrt) (hfacts r hrt).1
  have hptscells : (groupRows (setOrAppendCol t "PPG" (ppgOf t)) k).map
        (fun r => getCell (setOrAppendCol t "PPG" (ppgOf t)) r "PTS") =
      ((groupRows t k).map (fun row => qOf (getCell t row "PTS"))).map Cell.num := by
    rw [groupRows_d t h, List.map_map, List.map_map]
    apply List.map_congr_left
    intro r hr
    have hrt := mem_groupRows_rows hr
    show getCell _ (r ++ [ppgOf t r]) "PTS" = Cell.num (qOf (getCell t r "PTS"))
    rw [getCell_d_found t hnp (hw r hrt) (isMissingC_of_isNumC (hfacts r hrt).2.2.1)]
    exact eq_num_qOf_of_isNumC (hfacts r hrt).2.2.1
  have hgcells : (groupRows (setOrAppendCol t "PPG" (ppgOf t)) k).map
        (fun r => getCell (setOrAppendCol t "PPG" (ppgOf t)) r "G") =
      ((groupRows t k).map (fun row => qOf (getCell t row "G"))).map Cell.num := by
    rw [groupRows_d t h, List.map_map, List.map_map]
    apply List.map_congr_left
    intro r hr
    have hrt := mem_groupRows_rows hr
    show getCell _ (r ++ [ppgOf t r]) "G" = Cell.num (qOf (getCell t r "G"))
    rw [getCell_d_found t hnp (hw r hrt) (isMissingC_of_isNumC (hfacts r hrt).2.2.2)]
    exact eq_num_qOf_of_isNumC (hfacts r hrt).2.2.2
  refine ⟨hkd, ?_⟩
  unfold aggRow
  rw [hppgcells, hplayers, hptscells, hgcells]
  have hne1 : (groupRows t k).map
      (fun row => qOf (getCell t row "PTS") / qOf (getCell t row "G")) ≠ [] := by
    intro hx
    exact hne (List.map_eq_nil_iff.mp hx)
  have hne2 : (groupRows t k).map (fun row => qOf (getCell t row "G")) ≠ [] := by
    intro hx
    exact hne (List.map_eq_nil_iff.mp hx)
  rw [meanCells_num _ hne1, sumCells_num, meanCells_num _ hne2]
  rw [countCells_of_no_missing _ (fun c hc => by
    obtain ⟨r, hr, rfl⟩ := List.mem_map.mp hc
    exact (hfacts r (mem_groupRows_rows hr)).1)]
  rw [List.length_map, List.length_map, List.length_map]

theorem map_getD1_rankRows (k : ℕ) (l : List (List Cell)) :
    (rankRows k l).map (fun r => r.getD 1 .missing) =
      l.map (fun r => r.getD 0 .missing) := by
  rw [rankRows_eq_map_tagFrom, List.map_map]
  conv_rhs => rw [← tagFrom_map_snd k l, List.map_map]
  exact List.map_congr_left (fun p _ => rfl)

/-! ### Claim C1 -/

/-- C1 (confirmed): for every cleaned table of the pipeline shape (and
with no zero-games rows, so that every per-row `PTS / G` is an ordinary
number), the team table of `analyze_team_performance` has exactly one row
per distinct `Tm` value of the input (its `Team` column is a permutation
of the distinct `Tm` values); each output row carries, for its team `k`,
`Total_Players` = the number of input rows with `Tm = k`, `Total_Points` =
the sum of their `PTS`, and `Avg_PPG_Per_Player` = the mean of their
`PTS / G`; the rows are sorted by `Avg_PPG_Per_Player` non-increasing; and
the leading `Rank` column is exactly `1 .. team-count` in order.  (Output
row layout: `Rank` at index 0, `Team` 1, `Avg_PPG_Per_Player` 2,
`Total_Players` 3, `Total_Points` 4.) -/
theorem analyze_team_performance_spec (t : Table)
    (h : teamReady t = true) (hg : noZeroG t = true) :
    ((analyze_team_performance t).2.rows.map (fun r => r.getD 1 .missing)).Perm
      (distinctTms t) ∧
    (∀ r ∈ (analyze_team_performance t).2.rows, ∃ k ∈ distinctTms t,
      r.getD 1 .missing = k ∧
      r.getD 3 .missing = Cell.num ((groupRows t k).length : ℚ) ∧
      r.getD 4 .missing = Cell.num (((groupRows t k).map
        (fun row => qOf (getCell t row "PTS"))).sum) ∧
      r.getD 2 .missing = Cell.num ((((groupRows t k).map
        (fun row => qOf (getCell t row "PTS") / qOf (getCell t row "G"))).sum) /
        ((groupRows t k).length : ℚ))) ∧
    List.Pairwise (fun r1 r2 => qOf (r2.getD 2 .missing) ≤ qOf (r1.getD 2 .missing))
      (analyze_team_performance t).2.rows ∧
    ((analyze_team_performance t).2.rows.map (fun r => r.getD 0 .missing) =
      (List.range' 1 (analyze_team_performance t).2.rows.length).map
        (fun i : ℕ => Cell.num (i : ℚ))) := by
  set d := setOrAppendCol t "PPG" (ppgOf t) with hd_def
  set team0 : Table := Table.mk team_columns ((groupKeys d).map (aggRow d)) with hteam0_def
  have hrows2 : (analyze_team_performance t).2.rows =
      rankRows 1 (sortValuesDesc team0 "Avg_PPG_Per_Player").rows := rfl
  have hchar : ∀ r' ∈ team0.rows, ∃ k, k ∈ distinctTms t ∧
      r' = [k,
        Cell.num ((((groupRows t k).map
          (fun row => qOf (getCell t row "PTS") / qOf (getCell t row "G"))).sum) /
          ((groupRows t k).length : ℚ)),
        Cell.num ((groupRows t k).length : ℚ),
        Cell.num (((groupRows t k).map (fun row => qOf (getCell t row "PTS"))).sum),
        Cell.num ((((groupRows t k).map (fun row => qOf (getCell t row "G"))).sum) /
          ((groupRows t k).length : ℚ))] := by
    intro r' hr'
    obtain ⟨k, hk, rfl⟩ := List.mem_map.mp hr'
    obtain ⟨hkd, heq⟩ := aggRow_characterization t h hg k hk
    exact ⟨k, hkd, heq⟩
  have hsortmem : ∀ r' ∈ (sortValuesDesc team0 "Avg_PPG_Per_Player").rows,
      r' ∈ team0.rows :=
    fun r' hr' => (sortValuesDesc_rows_perm team0 "Avg_PPG_Per_Player").mem_iff.mp hr'
  have hfind : team_columns.findIdx? (· = "Avg_PPG_Per_Player") = some 1 := rfl
  refine ⟨?_, ?_, ?_, ?_⟩
  · -- one row per distinct team
    rw [hrows2, map_getD1_rankRows]
    refine List.Perm.trans (List.Perm.map _
      (sortValuesDesc_rows_perm team0 "Avg_PPG_Per_Player")) ?_
    have hmapteam : team0.rows.map (fun r => r.getD 0 .missing) = groupKeys d := by
      show ((groupKeys d).map (aggRow d)).map (fun r => r.getD 0 .missing) = groupKeys d
      rw [List.map_map]
      exact (List.map_congr_left (fun k _ => rfl)).trans (List.map_id _)
    rw [hmapteam]
    exact groupKeys_d_perm t h
  · -- per-team aggregates
    intro r hr
    rw [hrows2] at hr
    obtain ⟨j, r', rfl, hr'⟩ := mem_rankRows hr
    obtain ⟨k, hkd, rfl⟩ := hchar r' (hsortmem r' hr')
    exact ⟨k, hkd, rfl, rfl, rfl, rfl⟩
  · -- sorted by average PPG, non-increasing
    have hnn : ∀ r ∈ team0.rows,
        isMissingC (cellAt team0.cols r "Avg_PPG_Per_Player") = false := by
      intro r hr
      obtain ⟨k, _, rfl⟩ := hchar r hr
      rw [cellAt_of_findIdx?_some hfind]
      rfl
    have hpwS : List.Pairwise
        (fun r1 r2 => qOf (r2.getD 1 .missing) ≤ qOf (r1.getD 1 .missing))
        (sortValuesDesc team0 "Avg_PPG_Per_Player").rows := by
      show List.Pairwise _ ((sortedTagged team0 "Avg_PPG_Per_Player").map Prod.snd)
      rw [List.pairwise_map]
      refine (sortedTagged_pairwise_descRel_of_no_nan team0 _ hnn).imp_of_mem ?_
      intro p q hp hq hpq
      have hpmem : p.2 ∈ team0.rows :=
        mem_tagFrom_snd ((sortedTagged_perm team0 _).mem_iff.mp hp)
      have hqmem : q.2 ∈ team0.rows :=
        mem_tagFrom_snd ((sortedTagged_perm team0 _).mem_iff.mp hq)
      obtain ⟨kp, _, hpeq⟩ := hchar p.2 hpmem
      obtain ⟨kq, _, hqeq⟩ := hchar q.2 hqmem
      have hle := descRel_key_le hpq
      rw [cellAt_of_findIdx?_some hfind, cellAt_of_findIdx?_some hfind] at hle
      rw [hpeq, hqeq] at hle ⊢
      simp only [List.getD_cons_succ, List.getD_cons_zero] at hle ⊢
      rw [cellLEb_num_iff] at hle
      simpa [qOf] using hle
    rw [hrows2]
    refine (pairwise_rankRows 1 hpwS).imp_of_mem ?_
    intro a b ha hb hab
    obtain ⟨x, y, hxy, _⟩ := mem_rankRows ha
    obtain ⟨u, v, huv, _⟩ := mem_rankRows hb
    have := hab x y hxy u v huv
    subst hxy
    subst huv
    simpa only [List.getD_cons_succ] using this
  · -- dense 1-based ranks
    rw [hrows2, length_rankRows]
    exact rank_column 1 _

/-- Witness for C1 at the concrete Scenario A table `tScenA`. -/
theorem analyze_team_performance_spec_witness :
    (teamReady tScenA = true ∧ noZeroG tScenA = true) ∧
    (((analyze_team_performance tScenA).2.rows.map (fun r => r.getD 1 .missing)).Perm
       (distinctTms tScenA) ∧
     (∀ r ∈ (analyze_team_performance tScenA).2.rows, ∃ k ∈ distinctTms tScenA,
       r.getD 1 .missing = k ∧
       r.getD 3 .missing = Cell.num ((groupRows tScenA k).length : ℚ) ∧
       r.getD 4 .missing = Cell.num (((groupRows tScenA k).map
         (fun row => qOf (getCell tScenA row "PTS"))).sum) ∧
       r.getD 2 .missing = Cell.num ((((groupRows tScenA k).map
         (fun row => qOf (getCell tScenA row "PTS") / qOf (getCell tScenA row "G"))).sum) /
         ((groupRows tScenA k).length : ℚ))) ∧
     List.Pairwise (fun r1 r2 => qOf (r2.getD 2 .missing) ≤ qOf (r1.getD 2 .missing))
       (analyze_team_performance tScenA).2.rows ∧
     ((analyze_team_performance tScenA).2.rows.map (fun r => r.getD 0 .missing) =
       (List.range' 1 (analyze_team_performance tScenA).2.rows.length).map
         (fun i : ℕ => Cell.num (i : ℚ)))) :=
  ⟨⟨by decide, by decide⟩,
   analyze_team_performance_spec tScenA (by decide) (by decide)⟩

/-! ### Claim C9 -/

/-- The `Team` and `Total_Players` entries of an aggregated row, in terms
of the caller's table; unlike the full characterization this needs no
zero-games hypothesis, so it applies to groups containing `G = 0` rows. -/
theorem aggRow_team_and_count (t : Table) (h : teamReady t = true) (k : Cell) :
    (aggRow (setOrAppendCol t "PPG" (ppgOf t)) k).getD 0 .missing = k ∧
    (aggRow (setOrAppendCol t "PPG" (ppgOf t)) k).getD 2 .missing =
      Cell.num ((groupRows t k).length : ℚ) := by
  obtain ⟨hw, hnp, hfacts⟩ := teamReady_facts h
  refine ⟨rfl, ?_⟩
  have hplayers : (groupRows (setOrAppendCol t "PPG" (ppgOf t)) k).map
        (fun r => getCell (setOrAppendCol t "PPG" (ppgOf t)) r "Player") =
      (groupRows t k).map (fun r => getCell t r "Player") := by
    rw [groupRows_d t h, List.map_map]
    apply List.map_congr_left
    intro r hr
    have hrt := mem_groupRows_rows hr
    exact getCell_d_found t hnp (hw r hrt) (hfacts r hrt).1
  show Cell.num (countCells ((groupRows (setOrAppendCol t "PPG" (ppgOf t)) k).map
    (fun r => getCell (setOrAppendCol t "PPG" (ppgOf t)) r "Player")) : ℚ) = _
  rw [hplayers, countCells_of_no_missing _ (fun c hc => by
    obtain ⟨r, hr, rfl⟩ := List.mem_map.mp hc
    exact (hfacts r (mem_groupRows_rows hr)).1), List.length_map]

/-- C9 (confirmed): a row with `G = 0` reaching `analyze_team_performance`
yields a per-row `PPG = PTS / G` that is `+inf`, `-inf` or NaN — the
division is total, never an error (the model's `cellDiv` embeds numpy's
IEEE zero-divisor semantics) — and the row is not excluded from the team
grouping and aggregation: its team appears in the returned table with a
`Total_Players` count over all its rows, this one included. -/
theorem ppg_zero_games_not_excluded (t : Table) (h : teamReady t = true)
    (r0 : List Cell) (hr0 : r0 ∈ t.rows) (hG0 : getCell t r0 "G" = Cell.num 0) :
    (ppgOf t r0 = Cell.pinf ∨ ppgOf t r0 = Cell.ninf ∨ ppgOf t r0 = Cell.missing) ∧
    r0 ∈ groupRows t (getCell t r0 "Tm") ∧
    ∃ orow ∈ (analyze_team_performance t).2.rows,
      orow.getD 1 .missing = getCell t r0 "Tm" ∧
      orow.getD 3 .missing =
        Cell.num ((groupRows t (getCell t r0 "Tm")).length : ℚ) := by
  obtain ⟨hw, hnp, hfacts⟩ := teamReady_facts h
  obtain ⟨p, hp⟩ := isNumC_exists (hfacts r0 hr0).2.2.1
  constructor
  · unfold ppgOf
    rw [hp, hG0]
    have hdiv : cellDiv (Cell.num p) (Cell.num 0) =
        if 0 < p then Cell.pinf else if p < 0 then Cell.ninf else Cell.missing := by
      show (if (0 : ℚ) = 0 then (if 0 < p then Cell.pinf else if p < 0 then Cell.ninf
            else Cell.missing) else Cell.num (p / 0)) = _
      rw [if_pos rfl]
    rw [hdiv]
    by_cases h1 : 0 < p
    · exact Or.inl (by rw [if_pos h1])
    · by_cases h2 : p < 0
      · exact Or.inr (Or.inl (by rw [if_neg h1, if_pos h2]))
      · exact Or.inr (Or.inr (by rw [if_neg h1, if_neg h2]))
  have hmemgrp : r0 ∈ groupRows t (getCell t r0 "Tm") :=
    List.mem_filter.mpr ⟨hr0, decide_eq_true rfl⟩
  refine ⟨hmemgrp, ?_⟩
  have hkdist : getCell t r0 "Tm" ∈ distinctTms t := by
    unfold distinctTms
    apply List.mem_dedup.mpr
    apply List.mem_filter.mpr
    refine ⟨List.mem_map.mpr ⟨r0, hr0, rfl⟩, ?_⟩
    rw [isMissingC_of_isTextC (hfacts r0 hr0).2.1]
    rfl
  have hkkeys : getCell t r0 "Tm" ∈ groupKeys (setOrAppendCol t "PPG" (ppgOf t)) :=
    (groupKeys_d_perm t h).mem_iff.mpr hkdist
  have hteamrow : aggRow (setOrAppendCol t "PPG" (ppgOf t)) (getCell t r0 "Tm") ∈
      (Table.mk team_columns
        ((groupKeys (setOrAppendCol t "PPG" (ppgOf t))).map
          (aggRow (setOrAppendCol t "PPG" (ppgOf t))))).rows :=
    List.mem_map.mpr ⟨getCell t r0 "Tm", hkkeys, rfl⟩
  have hsortrow : aggRow (setOrAppendCol t "PPG" (ppgOf t)) (getCell t r0 "Tm") ∈
      (sortValuesDesc (Table.mk team_columns
        ((groupKeys (setOrAppendCol t "PPG" (ppgOf t))).map
          (aggRow (setOrAppendCol t "PPG" (ppgOf t))))) "Avg_PPG_Per_Player").rows :=
    (sortValuesDesc_rows_perm _ _).mem_iff.mpr hteamrow
  obtain ⟨j, hj⟩ := @exists_mem_rankRows 1 _ _ hsortrow
  obtain ⟨hc0, hc2⟩ := aggRow_team_and_count t h (getCell t r0 "Tm")
  refine ⟨Cell.num j :: aggRow (setOrAppendCol t "PPG" (ppgOf t)) (getCell t r0 "Tm"),
    hj, ?_, ?_⟩
  · simpa only [List.getD_cons_succ] using hc0
  · simpa only [List.getD_cons_succ] using hc2

/-- Witness for C9 at the concrete table `tZeroG` (first row has `G = 0`). -/
theorem ppg_zero_games_not_excluded_witness :
    (teamReady tZeroG = true ∧
     [Cell.text "P1", Cell.text "X", Cell.num 2020, Cell.num 7, Cell.num 0,
      Cell.num 100] ∈ tZeroG.rows ∧
     getCell tZeroG [Cell.text "P1", Cell.text "X", Cell.num 2020, Cell.num 7, Cell.num 0,
      Cell.num 100] "G" = Cell.num 0) ∧
    ((ppgOf tZeroG [Cell.text "P1", Cell.text "X", Cell.num 2020, Cell.num 7, Cell.num 0,
        Cell.num 100] = Cell.pinf ∨
      ppgOf tZeroG [Cell.text "P1", Cell.text "X", Cell.num 2020, Cell.num 7, Cell.num 0,
        Cell.num 100] = Cell.ninf ∨
      ppgOf tZeroG [Cell.text "P1", Cell.text "X", Cell.num 2020, Cell.num 7, Cell.num 0,
        Cell.num 100] = Cell.missing) ∧
     [Cell.text "P1", Cell.text "X", Cell.num 2020, Cell.num 7, Cell.num 0,
      Cell.num 100] ∈ groupRows tZeroG (getCell tZeroG [Cell.text "P1", Cell.text "X",
        Cell.num 2020, Cell.num 7, Cell.num 0, Cell.num 100] "Tm") ∧
     ∃ orow ∈ (analyze_team_performance tZeroG).2.rows,
       orow.getD 1 .missing = getCell tZeroG [Cell.text "P1", Cell.text "X", Cell.num 2020,
         Cell.num 7, Cell.num 0, Cell.num 100] "Tm" ∧
       orow.getD 3 .missing =
         Cell.num ((groupRows tZeroG (getCell tZeroG [Cell.text "P1", Cell.text "X",
           Cell.num 2020, Cell.num 7, Cell.num 0, Cell.num 100] "Tm")).length : ℚ)) :=
  ⟨⟨by decide, by decide, by decide⟩,
   ppg_zero_games_not_excluded tZeroG (by decide) _ (by decide) (by decide)⟩

theorem groupKeys_nil {t : Table} (h : t.rows = []) : groupKeys t = [] := by
  unfold groupKeys tmValues
  rw [h]
  rfl

theorem sortValuesDesc_rows_nil {t : Table} (c : String) (h : t.rows = []) :
    (sortValuesDesc t c).rows = [] := by
  have hp := sortValuesDesc_rows_perm t c
  rw [h] at hp
  exact List.Perm.eq_nil hp

/-! ### Claim C10 -/

/-- C10 (confirmed): on a zero-row input `analyze_team_performance` does
not return an empty team table — the aggregated result is empty and the
insight reporting (`team_stats.iloc[0]`, `team_stats.iloc[-1]` at
Analysis.py lines 187–188) raises `IndexError` instead of completing, so
the full function run yields no table (`none`). -/
theorem analyze_team_performance_empty_raises (t : Table) (h : t.rows = []) :
    (analyze_team_performance t).2.rows = [] ∧
    analyze_team_performance_run t = none := by
  have hd : (setOrAppendCol t "PPG" (ppgOf t)).rows = [] :=
    setOrAppendCol_rows_nil "PPG" (ppgOf t) h
  have hteam0 : (Table.mk team_columns
      ((groupKeys (setOrAppendCol t "PPG" (ppgOf t))).map
        (aggRow (setOrAppendCol t "PPG" (ppgOf t))))).rows = [] := by
    show (groupKeys (setOrAppendCol t "PPG" (ppgOf t))).map _ = []
    rw [groupKeys_nil hd]
    rfl
  have h2 : (analyze_team_performance t).2.rows = [] := by
    rw [analyze_team_performance_eq]
    show (insertRank (sortValuesDesc _ "Avg_PPG_Per_Player")).rows = []
    show rankRows 1 (sortValuesDesc _ "Avg_PPG_Per_Player").rows = []
    rw [sortValuesDesc_rows_nil _ hteam0]
    rfl
  refine ⟨h2, ?_⟩
  unfold analyze_team_performance_run
  show (if (analyze_team_performance t).2.rows.isEmpty = true then none
        else some (analyze_team_performance t)) = none
  rw [h2]
  rfl

/-- Witness for C10 at the concrete empty table `tEmpty`. -/
theorem analyze_team_performance_empty_raises_witness :
    tEmpty.rows = [] ∧
    ((analyze_team_performance tEmpty).2.rows = [] ∧
     analyze_team_performance_run tEmpty = none) :=
  ⟨rfl, analyze_team_performance_empty_raises tEmpty rfl⟩

/-! ### Claim C8 -/

/-- C8 (confirmed): given a nonexistent input file, `load_data` returns the
no-data sentinel `None`, and `main` then runs no later stage: nothing is
previewed, cleaned or analyzed, no chart artifact is written and no report
is printed. -/
theorem missing_file_halts_pipeline :
    load_data none = none ∧
    mainRun none = ⟨false, none, none, none, false, false⟩ :=
  ⟨rfl, rfl⟩

/-! ### Claim C5 -/

/-- C5 (code bug, shown at a concrete failing input): line 163 of
Analysis.py assigns the derived `PPG` column in place on the caller's
table (`analyze_top_scorers` copies at line 118; `analyze_team_performance`
does not), so after the call the caller's cleaned table has gained a `PPG`
column — it does not keep the columns it had, contradicting the spec's
aliasing requirement.  The mutated table is exactly what the summary
report stage then receives. -/
theorem analyze_team_performance_mutates_caller :
    ((analyze_team_performance tMut).1).cols = tMut.cols ++ ["PPG"] ∧
    ((analyze_team_performance tMut).1).cols ≠ tMut.cols ∧
    clean_data tMut = tMut ∧
    (mainRun (some tMut)).cleaned = some ((analyze_team_performance tMut).1) :=
  ⟨by decide, by decide, by decide, rfl⟩

end NBA
